import Mathlib

/-!
# Verification of the Evodia inventory-management core (`src/evodia_app.py`)

A shallow embedding of the core logic of `evodia_app.py`:

* the ID allocation scheme `get_next_id` (lines 219-230),
* the consumption engine shared by the internal-production form (lines 359-406)
  and the new-sale form (lines 479-537),
* the multi-item purchase-intake handler (lines 589-667).

Modelling conventions:

* Numeric spreadsheet cells (`current_stock`, quantities, prices) are pandas
  floats in the source; they are modelled as exact rationals (`ℚ`).
* `datetime.now()` timestamps are omitted from the row models (real time).
* DataFrames are modelled as Lean lists of row structures, in row order;
  `df[mask].index[0]` becomes "first index whose row satisfies the mask".
* Persistence (`update_worksheet`, `append_row`, `append_rows`) is modelled by
  an ordered write-event log returned next to the handler's result; a handler
  that errors out before reaching a persistence call returns an empty log.
* Python exceptions that are caught by the handlers' generic
  `except Exception` clause (KeyError, TypeError, gspread API errors) are
  modelled by the `PyExc` error wrapper; `json.JSONDecodeError` has its own
  dedicated `except` clause in the source and hence its own error constructor.
-/

/-! ## String utilities: the ID allocator (`get_next_id`, lines 219-230)

`get_next_id(df, id_column, prefix)` does
`pd.to_numeric(df[id_column].astype(str).str.replace(f'PREFIX-', ''), errors='coerce')`,
drops the unparsable entries, and returns `PREFIX-{int(max)+1}` (or `PREFIX-1`
when the table is empty or nothing parses).  `str.replace` with a plain pattern
replaces every occurrence of the pattern anywhere in the string (leftmost,
non-overlapping), and `pd.to_numeric` is modelled on integer-formatted strings
(optionally signed decimal numerals). -/

/-- `matchesAt pat s` is true iff `pat` occurs at the start of `s`. -/
def matchesAt : List Char → List Char → Bool
  | [], _ => true
  | _ :: _, [] => false
  | p :: ps, c :: cs => p == c && matchesAt ps cs

/-- Fuelled worker for `replaceAll`; with fuel `≥ s.length` it deletes every
leftmost, non-overlapping occurrence of `pat` from `s` (Python
`str.replace(pat, '')`). -/
def replaceAllFuel (pat : List Char) : Nat → List Char → List Char
  | _, [] => []
  | 0, s => s
  | f+1, c :: rest =>
    if matchesAt pat (c :: rest) = true ∧ pat ≠ [] then
      replaceAllFuel pat f (rest.drop (pat.length - 1))
    else
      c :: replaceAllFuel pat f rest

/-- Deletes every occurrence of `pat` from `s`: Python `s.replace(pat, '')`
as used by `pandas.Series.str.replace` in `get_next_id`. -/
def replaceAll (pat s : List Char) : List Char := replaceAllFuel pat s.length s

theorem replaceAllFuel_congr (pat : List Char) :
    ∀ f1 f2 s, s.length ≤ f1 → s.length ≤ f2 →
      replaceAllFuel pat f1 s = replaceAllFuel pat f2 s := by
  intro f1
  induction f1 with
  | zero =>
    intro f2 s h1 _
    have hs : s = [] := List.eq_nil_of_length_eq_zero (Nat.le_zero.mp h1)
    subst hs
    cases f2 <;> rfl
  | succ f ih =>
    intro f2 s h1 h2
    cases s with
    | nil => cases f2 <;> rfl
    | cons c rest =>
      cases f2 with
      | zero => simp at h2
      | succ g =>
        simp only [replaceAllFuel]
        have hlen : rest.length ≤ f := by simpa using h1
        have hlen2 : rest.length ≤ g := by simpa using h2
        split_ifs with h
        · exact ih g _ (by simp only [List.length_drop]; omega)
            (by simp only [List.length_drop]; omega)
        · rw [ih g rest hlen hlen2]

theorem replaceAll_nil (pat : List Char) : replaceAll pat [] = [] := rfl

theorem replaceAll_cons_match (pat : List Char) (c : Char) (rest : List Char)
    (h : matchesAt pat (c :: rest) = true) (hp : pat ≠ []) :
    replaceAll pat (c :: rest) = replaceAll pat (rest.drop (pat.length - 1)) := by
  show replaceAllFuel pat (c :: rest).length (c :: rest) = _
  have : (c :: rest).length = rest.length + 1 := by simp
  rw [this]
  simp only [replaceAllFuel]
  rw [if_pos ⟨h, hp⟩]
  exact replaceAllFuel_congr pat rest.length (rest.drop (pat.length - 1)).length _
    (by simp only [List.length_drop]; omega) (Nat.le_refl _)

theorem replaceAll_cons_nomatch (pat : List Char) (c : Char) (rest : List Char)
    (h : ¬ (matchesAt pat (c :: rest) = true ∧ pat ≠ [])) :
    replaceAll pat (c :: rest) = c :: replaceAll pat rest := by
  show replaceAllFuel pat (c :: rest).length (c :: rest) = _
  have : (c :: rest).length = rest.length + 1 := by simp
  rw [this]
  simp only [replaceAllFuel]
  rw [if_neg h]
  rfl

/-- Decimal digit string to `Nat` (the numeric part of `pd.to_numeric`). -/
def digitsToNat (cs : List Char) : Nat := cs.foldl (fun a c => a * 10 + (c.toNat - 48)) 0

/-- `pd.to_numeric(s, errors='coerce')` restricted to integer-formatted
strings: an optionally signed non-empty decimal numeral parses, everything
else coerces to NaN (`none`). -/
def parseIntStr (cs : List Char) : Option Int :=
  match cs with
  | [] => none
  | c :: rest =>
    if c = '-' then
      if rest ≠ [] ∧ rest.all Char.isDigit then some (-(digitsToNat rest : Int)) else none
    else if c = '+' then
      if rest ≠ [] ∧ rest.all Char.isDigit then some ((digitsToNat rest : Int)) else none
    else
      if (c :: rest).all Char.isDigit then some ((digitsToNat (c :: rest) : Int)) else none

/-- `Series.max()` over the parsed IDs (`none` on an empty series). -/
def listMaxInt : List Int → Option Int
  | [] => none
  | x :: xs => some (xs.foldl max x)

/-- Fuelled most-significant-first decimal digits of a natural number
(`f"{n}"` in Python); fuel `≥ n` suffices. -/
def natDigitsFuel : Nat → Nat → List Char
  | 0, n => [Char.ofNat (48 + n % 10)]
  | f+1, n =>
    if n < 10 then [Char.ofNat (48 + n)]
    else natDigitsFuel f (n / 10) ++ [Char.ofNat (48 + n % 10)]

/-- Decimal digits of a natural number, most significant first. -/
def natDigits (n : Nat) : List Char := natDigitsFuel n n

/-- Decimal rendering of an integer (`str(int)` in Python). -/
def intDigits (v : Int) : List Char :=
  if v < 0 then '-' :: natDigits v.natAbs else natDigits v.toNat

/-- `f"{pfx}-{v}"`: how `get_next_id` renders the freshly allocated ID. -/
def formatId (pfx : String) (v : Int) : String := pfx ++ "-" ++ (intDigits v).asString

/-- Strip every occurrence of `pfx + "-"` from `s` and parse the remainder:
one element of the `pd.to_numeric(....str.replace(f'{prefix}-', ''))` series. -/
def stripParse (pfx : String) (s : String) : Option Int :=
  parseIntStr (replaceAll (pfx ++ "-").toList s.toList)

/-- `get_next_id` (lines 219-230): the ID Allocator.  The table's ID column is
modelled as the list of its cells rendered as strings (`astype(str)`). -/
def get_next_id (ids : List String) (pfx : String) : String :=
  if ids.isEmpty then pfx ++ "-1"
  else
    match listMaxInt (ids.filterMap (stripParse pfx)) with
    | none => pfx ++ "-1"
    | some m => formatId pfx (m + 1)

example : get_next_id [] "PO" = "PO-1" := by decide
example : get_next_id ["PO-1", "PO-3", "FOO-99"] "PO" = "PO-4" := by decide
example : get_next_id ["PO-abc"] "PO" = "PO-1" := by decide
example : get_next_id ["7"] "PO" = "PO-8" := by decide
example : get_next_id ["PO--5"] "PO" = "PO--4" := by decide

/-! ## Data model: the inventory table (`inventory_stock`)

One row of `inventory_stock` (TAB_CONFIG, lines 45-48). -/

/-- A row of the `inventory_stock` table. -/
structure Entry where
  material_id : String
  material_name : String
  supplier_name : String
  category : String
  current_stock : ℚ
  unit_of_measure : String
deriving DecidableEq, Repr

/-- `df.loc[idx, 'current_stock'] = v`: replace the stock of the row at
positional index `idx`, leaving every other row and field alone. -/
def setStock : List Entry → Nat → ℚ → List Entry
  | [], _, _ => []
  | e :: rest, 0, v =>
    ⟨e.material_id, e.material_name, e.supplier_name, e.category, v, e.unit_of_measure⟩ :: rest
  | e :: rest, i+1, v => e :: setStock rest i v

/-- First row satisfying `p` together with its positional index:
`mask = ...; df[mask].index[0]` plus the row read at that index. -/
def findEntryAux (p : Entry → Bool) : List Entry → Option (Nat × Entry)
  | [] => none
  | e :: rest =>
    if p e then some (0, e)
    else (findEntryAux p rest).map (fun q => (q.1 + 1, q.2))

/-! ## Data model: decoded BOM components (`products_bom.components`)

`components` is a JSON-encoded list of objects.  `json.loads` succeeds on any
valid JSON text, so a decoded component may be a non-object, and a decoded
object may be missing fields or hold a string where a number is expected; the
handlers only discover this later, raising KeyError/TypeError into their
generic `except Exception` clause. -/

/-- A JSON scalar as it occurs in component fields: a string or a number. -/
inductive JVal
  | s (v : String)
  | n (v : ℚ)
deriving DecidableEq, Repr

/-- A decoded JSON object with the three component fields; `none` means the
key is absent (a later `item['key']` raises KeyError). -/
structure JObj where
  material_name : Option JVal
  supplier_name : Option JVal
  quantity_needed : Option JVal
deriving DecidableEq, Repr

/-- An element of the decoded components list; a non-object element makes
`item['material_name']` raise TypeError. -/
inductive JItem
  | obj (o : JObj)
  | nonObject
deriving DecidableEq, Repr

/-- The raw `components` cell of a BOM row, as seen by `json.loads`:
an absent cell (NaN — `json.loads` raises TypeError), a string that is not
valid JSON (raises `json.JSONDecodeError`), valid JSON that is not a list
(iteration/`item[...]` raises TypeError), or a decoded list. -/
inductive ComponentsCell
  | missingCell
  | invalidJson
  | jsonNonList
  | json (items : List JItem)
deriving DecidableEq, Repr

/-- A row of the `products_bom` table. -/
structure BomRow where
  product_name : String
  components : ComponentsCell
deriving DecidableEq, Repr

/-- `inventory_df_copy['material_name'] == material` for one cell: pandas
compares a string column against the looked-up component value; a non-string
component value matches no string cell. -/
def valMatches : JVal → String → Bool
  | .s v, name => v == name
  | .n _, _ => false

/-- The consumption mask and `index[0]` (lines 380-386 / 500-506):
first inventory row whose (material_name, supplier_name) matches the
component's values. -/
def findEntry (inv : List Entry) (material supplier : JVal) : Option (Nat × Entry) :=
  findEntryAux (fun e => valMatches material e.material_name
    && valMatches supplier e.supplier_name) inv

/-- The purchase-intake mask and `index[0]` (lines 635-639): first inventory
row matching the item's material name and the batch's supplier name. -/
def findEntryStr (inv : List Entry) (material supplier : String) : Option (Nat × Entry) :=
  findEntryAux (fun e => e.material_name == material && e.supplier_name == supplier) inv

/-! ## The Consumption Engine (shared loop of lines 377-392 and 497-512) -/

/-- A Python exception that lands in the handlers' generic
`except Exception` clause. -/
inductive PyExc
  | keyError (field : String)
  | typeError
  | apiError
deriving DecidableEq, Repr

/-- Everything a consumption handler can report.  `recipeNotFound`,
`materialNotFound` and `insufficient` are explicit `st.error` branches;
`jsonSyntax` is the dedicated `except json.JSONDecodeError` clause;
`pyError` is the generic `except Exception` clause; `formIncomplete` is the
pre-submission field validation. -/
inductive ConsumeError
  | formIncomplete
  | recipeNotFound
  | jsonSyntax
  | materialNotFound (material supplier : JVal)
  | insufficient (material : JVal) (needed available : ℚ)
  | pyError (e : PyExc)
deriving DecidableEq, Repr

/-- One iteration of the consumption loop (lines 377-392 / 497-512), executed
against the unmutated snapshot `inv`:
read the three component fields (KeyError if absent), compute
`needed = quantity_needed * quantity`, find the inventory row (break with
"tidak ditemukan" if the mask is empty), compare
`current_stock < needed` (TypeError when `quantity_needed` decoded as a
string; break with "Stok tidak cukup" when short), else record the
deferred update `(stock_idx, current_stock - needed)`. -/
def resolveItem (qty : ℚ) (inv : List Entry) : JItem → Except ConsumeError (Nat × ℚ)
  | .nonObject => .error (.pyError .typeError)
  | .obj o =>
    match o.material_name with
    | none => .error (.pyError (.keyError "material_name"))
    | some material =>
      match o.supplier_name with
      | none => .error (.pyError (.keyError "supplier_name"))
      | some supplier =>
        match o.quantity_needed with
        | none => .error (.pyError (.keyError "quantity_needed"))
        | some qn =>
          match findEntry inv material supplier with
          | none => .error (.materialNotFound material supplier)
          | some (idx, e) =>
            match qn with
            | .s _ => .error (.pyError .typeError)
            | .n q =>
              if e.current_stock < q * qty then
                .error (.insufficient material (q * qty) e.current_stock)
              else
                .ok (idx, e.current_stock - q * qty)

/-- The `for item in components` loop with its deferred `stock_updates`
accumulator: stops at the first failing component (`break` with
`sufficient_stock = False`), otherwise returns all `(stock_idx, new_value)`
pairs in component order.  The snapshot `inv` is never mutated inside the
loop — updates are applied only afterwards. -/
def consumeLoop (qty : ℚ) (inv : List Entry) :
    List JItem → List (Nat × ℚ) → Except ConsumeError (List (Nat × ℚ))
  | [], acc => .ok acc
  | it :: rest, acc =>
    match resolveItem qty inv it with
    | .error e => .error e
    | .ok p => consumeLoop qty inv rest (acc ++ [p])

/-- `for idx, new_val in stock_updates: inventory_df_copy.loc[idx, ...] = new_val`
(lines 395-396 / 515-516): apply the deferred updates in order; a later update
to the same index overwrites an earlier one. -/
def applyUpdates (inv : List Entry) (ups : List (Nat × ℚ)) : List Entry :=
  ups.foldl (fun cur p => setStock cur p.1 p.2) inv

/-! ## The form handlers and their persistence calls

Writes to the backing spreadsheet are recorded as an ordered event log.
`update_worksheet` on `inventory_stock` is a full-table overwrite;
sale rows go through `sales_ws.append_row`, purchase rows through
`purchase_ws.append_rows`. -/

/-- A row of `sales_orders` (without the wall-clock `date` column). -/
structure SaleRow where
  receipt_id : String
  client_name : String
  product_name : String
  product_quantity : ℕ
  total_purchase : ℚ
  payment_method : String
  status : String
deriving DecidableEq, Repr

/-- A row of `purchase_orders` (without the wall-clock `date` column). -/
structure PurchaseRow where
  purchase_id : String
  category : String
  sub_category : String
  supplier_name : String
  material_name : String
  quantity : ℚ
  unit_of_measure : String
  price : ℚ
  payment_system : String
  status : String
deriving DecidableEq, Repr

/-- One persistence call issued by a handler, in issue order. -/
inductive WriteEvent
  | invOverwrite (inv : List Entry)
  | saleAppend (row : SaleRow)
  | purchaseAppend (rows : List PurchaseRow)
deriving DecidableEq, Repr

/-- The fields of the new-sale form (lines 461-475). `product_quantity` is a
`number_input` with `min_value=1`, but the handler re-checks positivity. -/
structure SaleInput where
  client_name : String
  product_name : String
  product_quantity : ℕ
  total_purchase : ℚ
  payment_method : String
  status : String
deriving DecidableEq, Repr

/-- The `new_sale_form` submission handler (lines 479-537).

`sales_ids` is the `receipt_id` column of the freshly loaded `sales_orders`
table (used only by `get_next_id`).  `appendOk` models whether the
`sales_ws.append_row` call after the inventory overwrite succeeds; a raised
API error there is caught by the same generic `except Exception` clause as
any other exception in the block (`update_worksheet` itself swallows its own
exceptions, so the overwrite call always returns to the handler). -/
def new_sale_form (bom : List BomRow) (inventory_df : List Entry) (sales_ids : List String)
    (inp : SaleInput) (appendOk : Bool) : Except ConsumeError Unit × List WriteEvent :=
  if inp.client_name = "" ∨ inp.product_name = "" ∨ inp.product_quantity = 0 then
    (.error .formIncomplete, [])
  else
    match bom.find? (fun r => r.product_name == inp.product_name) with
    | none => (.error .recipeNotFound, [])
    | some row =>
      match row.components with
      | .missingCell => (.error (.pyError .typeError), [])
      | .invalidJson => (.error .jsonSyntax, [])
      | .jsonNonList => (.error (.pyError .typeError), [])
      | .json items =>
        match consumeLoop (inp.product_quantity : ℚ) inventory_df items [] with
        | .error e => (.error e, [])
        | .ok ups =>
          let inv2 := applyUpdates inventory_df ups
          let rid := get_next_id sales_ids "SALE"
          let srow : SaleRow :=
            ⟨rid, inp.client_name, inp.product_name, inp.product_quantity,
              inp.total_purchase, inp.payment_method, inp.status⟩
          if appendOk then
            (.ok (), [.invOverwrite inv2, .saleAppend srow])
          else
            (.error (.pyError .apiError), [.invOverwrite inv2])

/-- The fields of the internal-production form (lines 354-355). -/
structure ProductionInput where
  product_name : String
  quantity_to_produce : ℕ
deriving DecidableEq, Repr

/-- The `internal_production_form` submission handler (lines 359-406): the
same consumption logic as the sale form, but on success only the inventory
overwrite is persisted — no order record is appended. -/
def internal_production_form (bom : List BomRow) (inventory_df : List Entry)
    (inp : ProductionInput) : Except ConsumeError Unit × List WriteEvent :=
  if inp.product_name = "" then (.error .formIncomplete, [])
  else
    match bom.find? (fun r => r.product_name == inp.product_name) with
    | none => (.error .recipeNotFound, [])
    | some row =>
      match row.components with
      | .missingCell => (.error (.pyError .typeError), [])
      | .invalidJson => (.error .jsonSyntax, [])
      | .jsonNonList => (.error (.pyError .typeError), [])
      | .json items =>
        match consumeLoop (inp.quantity_to_produce : ℚ) inventory_df items [] with
        | .error e => (.error e, [])
        | .ok ups => (.ok (), [.invOverwrite (applyUpdates inventory_df ups)])

/-! ## The Intake Engine: multi-item purchase form (lines 589-667) -/

/-- The batch-level fields of the purchase form (lines 554-571). -/
structure IntakeInput where
  supplier_name : String
  category : String
  sub_category : String
  status : String
  payment_system : String
deriving DecidableEq, Repr

/-- One row of the purchase items data editor.  A missing `Material Name` or
`Unit` cell is the empty string (`item.get(...)` returning a falsy value);
`Quantity` defaults to 0. -/
structure PurchaseItem where
  material_name : String
  price : ℚ
  quantity : ℚ
  unit : String
deriving DecidableEq, Repr

/-- The intake handler's failure modes: the three explicit `st.error`
validation branches plus the final `items_processed == 0` branch
("Tidak ada item yang valid untuk diproses"). -/
inductive IntakeError
  | formIncomplete
  | subCategoryMissing
  | emptyItems
  | noValidItems
deriving DecidableEq, Repr

/-- The inventory upsert of one valid purchase item (lines 635-652): add the
quantity to the first matching (material, supplier) row, or append a fresh
row with a newly allocated `MAT` id and a category derived from the batch's
sub-category. -/
def upsertEntry (inv : List Entry) (material supplier sub_category : String)
    (qty : ℚ) (unit : String) : List Entry :=
  match findEntryStr inv material supplier with
  | some (idx, e) => setStock inv idx (e.current_stock + qty)
  | none =>
    inv ++ [⟨get_next_id (inv.map (fun e => e.material_id)) "MAT",
      material, supplier,
      if sub_category = "Bahan Baku" then "Bahan Baku" else "Kemasan",
      qty, unit⟩]

/-- The purchase row built for one processed item (lines 618-630). -/
def mkPurchaseRow (inp : IntakeInput) (sub_category nid material : String)
    (qty : ℚ) (unit : String) (price : ℚ) : PurchaseRow :=
  ⟨nid, inp.category, sub_category, inp.supplier_name, material, qty, unit,
    price, inp.payment_system, inp.status⟩

/-- `item.get(...)` validation (line 613): a skipped item has a missing
material name, a non-positive quantity, or a missing unit. -/
def validItem (it : PurchaseItem) : Bool :=
  !(it.material_name == "" || it.quantity ≤ 0 || it.unit == "")

/-- The `for item in edited_items` loop (lines 607-654).  Returns
`(new_purchase_rows, purchase_df, inventory_df_copy, items_processed)`.
Each processed item allocates its ID from the in-memory `purchase_df`
(including rows appended for earlier items of the same batch via
`purchase_df.loc[len(purchase_df)] = new_row_data`), then upserts the
inventory copy. -/
def intakeLoop (inp : IntakeInput) (sub_category : String) :
    List PurchaseItem → List PurchaseRow → List Entry → Nat →
    List PurchaseRow × List PurchaseRow × List Entry × Nat
  | [], purchase_df, inv, p => ([], purchase_df, inv, p)
  | it :: rest, purchase_df, inv, p =>
    if validItem it then
      let nid := get_next_id (purchase_df.map (fun r => r.purchase_id)) "PO"
      let row := mkPurchaseRow inp sub_category nid it.material_name it.quantity it.unit it.price
      let res := intakeLoop inp sub_category rest (purchase_df ++ [row])
        (upsertEntry inv it.material_name inp.supplier_name sub_category it.quantity it.unit)
        (p + 1)
      (row :: res.1, res.2.1, res.2.2.1, res.2.2.2)
    else
      intakeLoop inp sub_category rest purchase_df inv p

/-- The purchase submission handler (lines 589-667).  The sub-category
variable is only populated when the category is Operational or RnD (lines
562-568); after the loop, persistence happens only when
`items_processed > 0`: first `purchase_ws.append_rows(new_purchase_rows)`,
then the inventory overwrite. -/
def purchase_form (inp : IntakeInput) (purchase_df : List PurchaseRow)
    (inventory_df : List Entry) (items : List PurchaseItem) :
    Except IntakeError Unit × List WriteEvent :=
  if inp.supplier_name = "" ∨ inp.category = "" ∨ inp.status = "" then
    (.error .formIncomplete, [])
  else if (inp.category = "Operational" ∨ inp.category = "RnD") ∧ inp.sub_category = "" then
    (.error .subCategoryMissing, [])
  else if items.isEmpty ∨ items.all (fun it => it.material_name == "") then
    (.error .emptyItems, [])
  else
    let sub_category :=
      if inp.category = "Operational" ∨ inp.category = "RnD" then inp.sub_category else ""
    let res := intakeLoop inp sub_category items purchase_df inventory_df 0
    if res.2.2.2 > 0 then
      (.ok (), [.purchaseAppend res.1, .invOverwrite res.2.2.1])
    else
      (.error .noValidItems, [])

/-! ## Definitions used only to state the claims -/

/-- The inventory tables written by a handler, in write order. -/
def invWrites (log : List WriteEvent) : List (List Entry) :=
  log.filterMap (fun ev => match ev with | .invOverwrite i => some i | _ => none)

/-- The error (if any) a single component produces against the snapshot. -/
def errOf : Except ConsumeError (Nat × ℚ) → Option ConsumeError
  | .error e => some e
  | .ok _ => none

/-- The decoded `quantity_needed` number of a component, when present. -/
def itemQn : JItem → Option ℚ
  | .obj o =>
    match o.quantity_needed with
    | some (.n q) => some q
    | _ => none
  | .nonObject => none

/-- The (material, supplier) key of a component, when it is an object. -/
def keyOf : JItem → Option (Option JVal × Option JVal)
  | .obj o => some (o.material_name, o.supplier_name)
  | .nonObject => none

/-- Whether an error is surfaced through the handlers' generic
`except Exception` clause. -/
def isGenericFailure : ConsumeError → Bool
  | .pyError _ => true
  | _ => false

/-! ## Definitions that follow the spec's words (for refinement comparison) -/

/-- Result of the spec's `checkAndReserve` (§4.2). -/
inductive SpecCheckResult
  | ok (ledger : List Entry)
  | insufficient (material supplier : String) (needed available : ℚ)
  | materialNotFound (material supplier : String)
deriving DecidableEq, Repr

/-- Follows the spec's words (§4.2 `checkAndReserve`), NOT the source:
"If the same `(material, supplier)` appears in requirements twice,
deductions accumulate in the order encountered before the sufficiency test
is evaluated against the running total, not the original stock, for the
second occurrence."  Each requirement is checked against — and deducted
from — the running ledger. -/
def checkAndReserve_spec (inv : List Entry) :
    List (String × String × ℚ) → SpecCheckResult
  | [] => .ok inv
  | (m, s, need) :: rest =>
    match findEntryStr inv m s with
    | none => .materialNotFound m s
    | some (idx, e) =>
      if e.current_stock < need then .insufficient m s need e.current_stock
      else checkAndReserve_spec (setStock inv idx (e.current_stock - need)) rest

/-- Follows the claim's words (C6 / spec §4.5), NOT the source: take the
numeric suffix of every ID that starts with `prefix + "-"`, ignore malformed
or foreign-prefixed IDs, return `prefix-(max+1)` with 0 as the default max. -/
def get_next_id_spec (ids : List String) (pfx : String) : String :=
  let nums := ids.filterMap (fun s =>
    if matchesAt (pfx ++ "-").toList s.toList then
      parseIntStr (s.toList.drop (pfx ++ "-").length)
    else none)
  formatId pfx ((listMaxInt nums).getD 0 + 1)

/-! ## Lemmas about `setStock` and `findEntryAux` -/

theorem setStock_length (inv : List Entry) (i : Nat) (v : ℚ) :
    (setStock inv i v).length = inv.length := by
  induction inv generalizing i with
  | nil => rfl
  | cons e rest ih =>
    cases i with
    | zero => rfl
    | succ j => simpa [setStock] using ih j

theorem setStock_get_self (inv : List Entry) (i : Nat) (v : ℚ) :
    (setStock inv i v).get? i =
      (inv.get? i).map (fun e =>
        ⟨e.material_id, e.material_name, e.supplier_name, e.category, v, e.unit_of_measure⟩) := by
  induction inv generalizing i with
  | nil => cases i <;> rfl
  | cons e rest ih =>
    cases i with
    | zero => rfl
    | succ j => simpa [setStock] using ih j

theorem setStock_get_other (inv : List Entry) (i j : Nat) (v : ℚ) (h : j ≠ i) :
    (setStock inv i v).get? j = inv.get? j := by
  induction inv generalizing i j with
  | nil => cases i <;> rfl
  | cons e rest ih =>
    cases i with
    | zero => cases j with
      | zero => exact absurd rfl h
      | succ k => rfl
    | succ m => cases j with
      | zero => rfl
      | succ k => simpa [setStock] using ih m k (by omega)

theorem setStock_mem (inv : List Entry) (i : Nat) (v : ℚ) (e' : Entry)
    (h : e' ∈ setStock inv i v) :
    e' ∈ inv ∨ (∃ e ∈ inv, e' =
      ⟨e.material_id, e.material_name, e.supplier_name, e.category, v, e.unit_of_measure⟩) := by
  induction inv generalizing i with
  | nil => simp [setStock] at h
  | cons e rest ih =>
    cases i with
    | zero =>
      rcases List.mem_cons.mp h with h0 | h0
      · exact Or.inr ⟨e, List.mem_cons_self .., h0⟩
      · exact Or.inl (List.mem_cons_of_mem _ h0)
    | succ j =>
      rcases List.mem_cons.mp h with h0 | h0
      · exact Or.inl (h0 ▸ List.mem_cons_self ..)
      · rcases ih j h0 with h1 | ⟨w, hw, he⟩
        · exact Or.inl (List.mem_cons_of_mem _ h1)
        · exact Or.inr ⟨w, List.mem_cons_of_mem _ hw, he⟩

theorem forall₂_exists_left {α β : Type} {R : α → β → Prop} :
    ∀ {as : List α} {bs : List β}, List.Forall₂ R as bs → ∀ b ∈ bs, ∃ a ∈ as, R a b := by
  intro as bs h
  induction h with
  | nil => intro b hb; simp at hb
  | cons hr _ ih =>
    intro b hb
    rcases List.mem_cons.mp hb with h0 | h0
    · exact ⟨_, List.mem_cons_self .., h0 ▸ hr⟩
    · obtain ⟨a, ha, hR⟩ := ih b h0
      exact ⟨a, List.mem_cons_of_mem _ ha, hR⟩

theorem forall₂_imp_mem {α β : Type} {R Q : α → β → Prop} :
    ∀ {as : List α} {bs : List β}, List.Forall₂ R as bs →
      (∀ a b, a ∈ as → b ∈ bs → R a b → Q a b) → List.Forall₂ Q as bs := by
  intro as bs h
  induction h with
  | nil => intro _; exact .nil
  | cons hr _ ih =>
    intro himp
    exact .cons (himp _ _ (List.mem_cons_self ..) (List.mem_cons_self ..) hr)
      (ih fun a b ha hb => himp a b (List.mem_cons_of_mem _ ha) (List.mem_cons_of_mem _ hb))

theorem findEntryAux_spec (p : Entry → Bool) (inv : List Entry) (i : Nat) (e : Entry)
    (h : findEntryAux p inv = some (i, e)) :
    inv.get? i = some e ∧ p e = true := by
  induction inv generalizing i with
  | nil => simp [findEntryAux] at h
  | cons a rest ih =>
    by_cases hp : p a
    · rw [findEntryAux, if_pos hp] at h
      obtain ⟨h1, h2⟩ := Prod.mk.injEq .. ▸ Option.some.injEq .. ▸ h
      exact ⟨h1 ▸ h2 ▸ rfl, h2 ▸ hp⟩
    · rw [findEntryAux, if_neg hp] at h
      cases hrec : findEntryAux p rest with
      | none => rw [hrec] at h; simp at h
      | some q =>
        rw [hrec] at h
        simp only [Option.map_some'] at h
        obtain ⟨h1, h2⟩ := Prod.mk.injEq .. ▸ Option.some.injEq .. ▸ h
        cases i with
        | zero => omega
        | succ j =>
          have hj : q.1 = j := by omega
          have := ih j (by rw [← hj, ← h2]; exact hrec)
          simpa using this

/-! ## Lemmas about `resolveItem`, `consumeLoop`, `applyUpdates` -/

theorem resolveItem_ok (qty : ℚ) (inv : List Entry) (it : JItem) (i : Nat) (v : ℚ)
    (h : resolveItem qty inv it = .ok (i, v)) :
    ∃ o material supplier q e, it = .obj o ∧ o.material_name = some material ∧
      o.supplier_name = some supplier ∧ o.quantity_needed = some (.n q) ∧
      findEntry inv material supplier = some (i, e) ∧
      ¬ e.current_stock < q * qty ∧ v = e.current_stock - q * qty := by
  cases it with
  | nonObject => simp [resolveItem] at h
  | obj o =>
    cases hm : o.material_name with
    | none => simp [resolveItem, hm] at h
    | some material =>
    cases hs : o.supplier_name with
    | none => simp [resolveItem, hm, hs] at h
    | some supplier =>
    cases hq : o.quantity_needed with
    | none => simp [resolveItem, hm, hs, hq] at h
    | some qn =>
    cases hf : findEntry inv material supplier with
    | none => simp [resolveItem, hm, hs, hq, hf] at h
    | some pe =>
      obtain ⟨idx, e⟩ := pe
      cases qn with
      | s str => simp [resolveItem, hm, hs, hq, hf] at h
      | n q =>
        by_cases hlt : e.current_stock < q * qty
        · simp [resolveItem, hm, hs, hq, hf, hlt] at h
        · simp only [resolveItem, hm, hs, hq, hf, if_neg hlt] at h
          obtain ⟨h1, h2⟩ := Prod.mk.injEq .. ▸ Except.ok.injEq .. ▸ h
          exact ⟨o, material, supplier, q, e, rfl, hm, hs, hq, h1 ▸ hf, hlt, h2.symm⟩

theorem resolveItem_ok_nonneg (qty : ℚ) (inv : List Entry) (it : JItem) (p : Nat × ℚ)
    (h : resolveItem qty inv it = .ok p) : 0 ≤ p.2 := by
  obtain ⟨o, material, supplier, q, e, _, _, _, _, _, hlt, hv⟩ :=
    resolveItem_ok qty inv it p.1 p.2 (by rw [Prod.mk.eta]; exact h)
  have := not_lt.mp hlt
  rw [hv]
  linarith

theorem consumeLoop_ok (qty : ℚ) (inv : List Entry) :
    ∀ (items : List JItem) (acc ups : List (Nat × ℚ)),
      consumeLoop qty inv items acc = .ok ups →
      ∃ t, ups = acc ++ t ∧
        List.Forall₂ (fun it p => resolveItem qty inv it = .ok p) items t := by
  intro items
  induction items with
  | nil =>
    intro acc ups h
    refine ⟨[], ?_, List.Forall₂.nil⟩
    simpa [consumeLoop] using (Except.ok.injEq .. ▸ h).symm
  | cons it rest ih =>
    intro acc ups h
    rw [consumeLoop] at h
    cases hr : resolveItem qty inv it with
    | error e => rw [hr] at h; simp at h
    | ok p =>
      rw [hr] at h
      obtain ⟨t, ht, hf⟩ := ih (acc ++ [p]) ups h
      exact ⟨p :: t, by simpa using ht, List.Forall₂.cons hr hf⟩

theorem consumeLoop_error (qty : ℚ) (inv : List Entry) :
    ∀ (items : List JItem) (acc : List (Nat × ℚ)) (e : ConsumeError),
      consumeLoop qty inv items acc = .error e →
      items.findSome? (fun it => errOf (resolveItem qty inv it)) = some e := by
  intro items
  induction items with
  | nil => intro acc e h; simp [consumeLoop] at h
  | cons it rest ih =>
    intro acc e h
    rw [consumeLoop] at h
    cases hr : resolveItem qty inv it with
    | error e' =>
      rw [hr] at h
      simp only [Except.error.injEq] at h
      simp [List.findSome?_cons, errOf, hr, h]
    | ok p =>
      rw [hr] at h
      have := ih (acc ++ [p]) e h
      simpa [List.findSome?_cons, errOf, hr] using this

theorem consumeLoop_ok_nonneg (qty : ℚ) (inv : List Entry) (items : List JItem)
    (ups : List (Nat × ℚ)) (h : consumeLoop qty inv items [] = .ok ups) :
    ∀ p ∈ ups, 0 ≤ p.2 := by
  obtain ⟨t, ht, hf⟩ := consumeLoop_ok qty inv items [] ups h
  intro p hp
  rw [ht] at hp
  simp only [List.nil_append] at hp
  obtain ⟨it, _, hR⟩ := forall₂_exists_left hf p hp
  exact resolveItem_ok_nonneg qty inv it p hR

theorem applyUpdates_nil (inv : List Entry) : applyUpdates inv [] = inv := rfl

theorem applyUpdates_cons (inv : List Entry) (p : Nat × ℚ) (ups : List (Nat × ℚ)) :
    applyUpdates inv (p :: ups) = applyUpdates (setStock inv p.1 p.2) ups := rfl

theorem applyUpdates_mem_nonneg (ups : List (Nat × ℚ)) (inv : List Entry)
    (hinv : ∀ e ∈ inv, 0 ≤ e.current_stock) (hups : ∀ p ∈ ups, 0 ≤ p.2) :
    ∀ e ∈ applyUpdates inv ups, 0 ≤ e.current_stock := by
  induction ups generalizing inv with
  | nil => exact hinv
  | cons p rest ih =>
    intro e he
    rw [applyUpdates_cons] at he
    refine ih (setStock inv p.1 p.2) ?_ (fun q hq => hups q (List.mem_cons_of_mem _ hq)) e he
    intro e' he'
    rcases setStock_mem inv p.1 p.2 e' he' with h0 | ⟨w, _, hE⟩
    · exact hinv e' h0
    · rw [hE]; exact hups p (List.mem_cons_self ..)

theorem applyUpdates_get_frame (ups : List (Nat × ℚ)) (inv : List Entry) (j : Nat)
    (h : ∀ p ∈ ups, p.1 ≠ j) :
    (applyUpdates inv ups).get? j = inv.get? j := by
  induction ups generalizing inv with
  | nil => rfl
  | cons p rest ih =>
    rw [applyUpdates_cons, ih _ (fun q hq => h q (List.mem_cons_of_mem _ hq)),
      setStock_get_other inv p.1 j p.2 (Ne.symm (h p (List.mem_cons_self ..)))]

theorem applyUpdates_get_update (ups : List (Nat × ℚ)) (inv : List Entry) (i : Nat) (v : ℚ)
    (hmem : (i, v) ∈ ups) (hnd : (ups.map Prod.fst).Nodup) :
    (applyUpdates inv ups).get? i =
      (inv.get? i).map (fun e =>
        ⟨e.material_id, e.material_name, e.supplier_name, e.category, v, e.unit_of_measure⟩) := by
  induction ups generalizing inv with
  | nil => simp at hmem
  | cons p rest ih =>
    rw [List.map_cons, List.nodup_cons] at hnd
    obtain ⟨hnotin, hndrest⟩ := hnd
    rcases List.mem_cons.mp hmem with h0 | h0
    · have hp1 : p.1 = i := by rw [← h0]
      have hfront : ∀ q ∈ rest, q.1 ≠ i := by
        intro q hq he
        exact hnotin (hp1 ▸ he ▸ List.mem_map_of_mem Prod.fst hq)
      rw [applyUpdates_cons, applyUpdates_get_frame rest _ i hfront, ← h0]
      exact setStock_get_self inv i v
    · have hne : i ≠ p.1 := by
        intro he
        exact hnotin (he ▸ List.mem_map_of_mem Prod.fst h0)
      rw [applyUpdates_cons, ih _ h0 hndrest, setStock_get_other inv p.1 i p.2 hne]

/-! ## Round-trip lemmas for allocated IDs (used for claim C10) -/

theorem charOfNat_digit_isDigit (d : Nat) (h : d < 10) :
    (Char.ofNat (48 + d)).isDigit = true := by
  interval_cases d <;> decide

theorem charOfNat_digit_toNat (d : Nat) (h : d < 10) :
    (Char.ofNat (48 + d)).toNat = 48 + d := by
  interval_cases d <;> decide

theorem digitsToNat_append_one (xs : List Char) (c : Char) :
    digitsToNat (xs ++ [c]) = digitsToNat xs * 10 + (c.toNat - 48) := by
  unfold digitsToNat
  rw [List.foldl_append]
  rfl

theorem natDigitsFuel_spec :
    ∀ f n, n ≤ f →
      natDigitsFuel f n ≠ [] ∧ (∀ c ∈ natDigitsFuel f n, c.isDigit = true) ∧
        digitsToNat (natDigitsFuel f n) = n := by
  intro f
  induction f with
  | zero =>
    intro n hn
    have hn0 : n = 0 := Nat.le_zero.mp hn
    subst hn0
    refine ⟨by simp [natDigitsFuel], ?_, by decide⟩
    intro c hc
    simp [natDigitsFuel] at hc
    subst hc
    decide
  | succ f ih =>
    intro n hn
    by_cases h10 : n < 10
    · simp only [natDigitsFuel, if_pos h10]
      refine ⟨by simp, ?_, ?_⟩
      · intro c hc
        simp at hc
        subst hc
        exact charOfNat_digit_isDigit n h10
      · show digitsToNat ([] ++ [Char.ofNat (48 + n)]) = n
        rw [digitsToNat_append_one, charOfNat_digit_toNat n h10]
        simp [digitsToNat]
    · have hdiv : n / 10 ≤ f := by omega
      obtain ⟨ihne, ihdig, ihval⟩ := ih (n / 10) hdiv
      simp only [natDigitsFuel, if_neg h10]
      refine ⟨by simp, ?_, ?_⟩
      · intro c hc
        rcases List.mem_append.mp hc with h0 | h0
        · exact ihdig c h0
        · simp at h0
          subst h0
          exact charOfNat_digit_isDigit (n % 10) (by omega)
      · rw [digitsToNat_append_one, ihval, charOfNat_digit_toNat (n % 10) (by omega)]
        omega

theorem natDigits_ne_nil (n : Nat) : natDigits n ≠ [] :=
  (natDigitsFuel_spec n n (Nat.le_refl n)).1

theorem natDigits_isDigit (n : Nat) : ∀ c ∈ natDigits n, c.isDigit = true :=
  (natDigitsFuel_spec n n (Nat.le_refl n)).2.1

theorem digitsToNat_natDigits (n : Nat) : digitsToNat (natDigits n) = n :=
  (natDigitsFuel_spec n n (Nat.le_refl n)).2.2

theorem parseIntStr_digits (cs : List Char) (hne : cs ≠ [])
    (hd : ∀ c ∈ cs, c.isDigit = true) :
    parseIntStr cs = some ((digitsToNat cs : Nat) : Int) := by
  cases cs with
  | nil => exact absurd rfl hne
  | cons c rest =>
    have hc : c.isDigit = true := hd c (List.mem_cons_self ..)
    have hcm : ¬ c = '-' := by
      intro he; subst he; exact absurd hc (by decide)
    have hcp : ¬ c = '+' := by
      intro he; subst he; exact absurd hc (by decide)
    simp only [parseIntStr, if_neg hcm, if_neg hcp]
    rw [if_pos (List.all_eq_true.mpr hd)]

theorem parseIntStr_intDigits (v : Int) : parseIntStr (intDigits v) = some v := by
  unfold intDigits
  split_ifs with hv
  · have hne := natDigits_ne_nil v.natAbs
    have hdig := natDigits_isDigit v.natAbs
    show parseIntStr ('-' :: natDigits v.natAbs) = some v
    rw [parseIntStr, if_pos rfl, if_pos ⟨hne, List.all_eq_true.mpr hdig⟩, digitsToNat_natDigits]
    have hval : -((v.natAbs : Nat) : Int) = v := by omega
    rw [hval]
  · rw [parseIntStr_digits (natDigits v.toNat) (natDigits_ne_nil _) (natDigits_isDigit _),
      digitsToNat_natDigits]
    have hval : ((v.toNat : Nat) : Int) = v := by omega
    rw [hval]

theorem intDigits_chars (v : Int) : ∀ c ∈ intDigits v, c.isDigit = true ∨ c = '-' := by
  unfold intDigits
  split_ifs with hv
  · intro c hc
    rcases List.mem_cons.mp hc with h0 | h0
    · exact Or.inr h0
    · exact Or.inl (natDigits_isDigit _ c h0)
  · intro c hc
    exact Or.inl (natDigits_isDigit _ c hc)

theorem replaceAll_po_fixed (cs : List Char) (h : ∀ c ∈ cs, c ≠ 'P') :
    replaceAll ['P', 'O', '-'] cs = cs := by
  induction cs with
  | nil => rfl
  | cons c rest ih =>
    have hc : c ≠ 'P' := h c (List.mem_cons_self ..)
    have hbeq : ('P' == c) = false := beq_eq_false_iff_ne.mpr (Ne.symm hc)
    have hm : matchesAt ['P', 'O', '-'] (c :: rest) = false := by
      simp [matchesAt, hbeq]
    have hnomatch : ¬ (matchesAt ['P', 'O', '-'] (c :: rest) = true ∧
        (['P', 'O', '-'] : List Char) ≠ []) := by
      intro hcon
      have h3 := hcon.1
      rw [hm] at h3
      exact absurd h3 (by decide)
    rw [replaceAll_cons_nomatch _ _ _ hnomatch,
      ih (fun x hx => h x (List.mem_cons_of_mem _ hx))]

theorem stripParse_formatId (v : Int) : stripParse "PO" (formatId "PO" v) = some v := by
  unfold stripParse formatId
  have h1 : ("PO" ++ "-").toList = ['P', 'O', '-'] := rfl
  have h2 : ("PO" ++ "-" ++ (intDigits v).asString).toList = 'P' :: 'O' :: '-' :: intDigits v := by
    show ("PO" ++ "-" ++ (intDigits v).asString).data = _
    rw [String.data_append, String.data_append]
    rfl
  rw [h1, h2]
  have hmatch : matchesAt ['P', 'O', '-'] ('P' :: 'O' :: '-' :: intDigits v) = true := by
    simp [matchesAt]
  rw [replaceAll_cons_match _ _ _ hmatch (by simp)]
  have hdrop : ('O' :: '-' :: intDigits v).drop (['P', 'O', '-'].length - 1) = intDigits v := rfl
  have hnop : ∀ c ∈ intDigits v, c ≠ 'P' := by
    intro c hc he
    subst he
    rcases intDigits_chars v 'P' hc with h0 | h0
    · exact absurd h0 (by decide)
    · exact absurd h0 (by decide)
  rw [hdrop, replaceAll_po_fixed (intDigits v) hnop]
  exact parseIntStr_intDigits v

/-- The numeric value `get_next_id(..., 'PO')` will allocate next: the parsed
maximum of the `purchase_id` column (0 when nothing parses) plus one. -/
def nextVal (ids : List String) : Int :=
  (listMaxInt (ids.filterMap (stripParse "PO"))).getD 0 + 1

theorem get_next_id_po (ids : List String) :
    get_next_id ids "PO" = formatId "PO" (nextVal ids) := by
  unfold get_next_id nextVal
  split_ifs with h
  · have hnil : ids = [] := List.isEmpty_iff.mp h
    subst hnil
    decide
  · cases hm : listMaxInt (ids.filterMap (stripParse "PO")) with
    | none => decide
    | some m => rfl

theorem listMaxInt_append_one (xs : List Int) (v : Int) :
    listMaxInt (xs ++ [v]) =
      some (match listMaxInt xs with | none => v | some m => max m v) := by
  cases xs with
  | nil => rfl
  | cons x t => simp [listMaxInt, List.foldl_append]

theorem nextVal_append (ids : List String) (s : String)
    (h : stripParse "PO" s = some (nextVal ids)) :
    nextVal (ids ++ [s]) = nextVal ids + 1 := by
  unfold nextVal at h ⊢
  rw [List.filterMap_append]
  have hone : [s].filterMap (stripParse "PO") =
      [(listMaxInt (ids.filterMap (stripParse "PO"))).getD 0 + 1] := by
    simp [List.filterMap, h]
  rw [hone, listMaxInt_append_one]
  cases hm : listMaxInt (ids.filterMap (stripParse "PO")) with
  | none => simp
  | some m =>
    simp only [Option.getD_some]
    have : max m (m + 1) = m + 1 := max_eq_right (by omega)
    rw [this]

theorem intakeLoop_ids (inp : IntakeInput) (sub_category : String) :
    ∀ (items : List PurchaseItem) (df : List PurchaseRow) (inv : List Entry) (p : Nat),
      ((intakeLoop inp sub_category items df inv p).1).map
          (fun r => stripParse "PO" r.purchase_id)
        = (List.range (items.countP validItem)).map
            (fun k : Nat => some (nextVal (df.map (fun r => r.purchase_id)) + (k : Int))) := by
  intro items
  induction items with
  | nil => intro df inv p; simp [intakeLoop]
  | cons it rest ih =>
    intro df inv p
    by_cases hv : validItem it
    · have hcount : (it :: rest).countP validItem = rest.countP validItem + 1 := by
        rw [List.countP_cons]
        simp [hv]
      have hid : stripParse "PO" (get_next_id (df.map (fun r => r.purchase_id)) "PO")
          = some (nextVal (df.map (fun r => r.purchase_id))) := by
        rw [get_next_id_po]
        exact stripParse_formatId _
      rw [hcount, List.range_succ_eq_map]
      simp only [intakeLoop, if_pos hv, List.map_cons, List.map_map]
      congr 1
      · simp [mkPurchaseRow, hid]
      · rw [ih]
        have hids : ((df ++ [mkPurchaseRow inp sub_category
            (get_next_id (df.map (fun r => r.purchase_id)) "PO")
            it.material_name it.quantity it.unit it.price]).map (fun r => r.purchase_id))
            = df.map (fun r => r.purchase_id) ++
              [get_next_id (df.map (fun r => r.purchase_id)) "PO"] := by
          simp [mkPurchaseRow]
        rw [hids, nextVal_append _ _ hid]
        apply List.map_congr_left
        intro k _
        congr 1
        push_cast
        ring
    · rw [intakeLoop, if_neg hv]
      have hcount : (it :: rest).countP validItem = rest.countP validItem := by
        rw [List.countP_cons]
        simp [hv]
      rw [hcount]
      exact ih df inv p

theorem intakeLoop_spec (inp : IntakeInput) (sub_category : String) :
    ∀ (items : List PurchaseItem) (df : List PurchaseRow) (inv : List Entry) (p : Nat),
      (intakeLoop inp sub_category items df inv p).2.2.2 = p + items.countP validItem ∧
      (intakeLoop inp sub_category items df inv p).1.length = items.countP validItem ∧
      (intakeLoop inp sub_category items df inv p).1.map (fun r => r.material_name)
        = (items.filter validItem).map (fun it => it.material_name) := by
  intro items
  induction items with
  | nil => intro df inv p; simp [intakeLoop]
  | cons it rest ih =>
    intro df inv p
    by_cases hv : validItem it
    · have hcount : (it :: rest).countP validItem = rest.countP validItem + 1 := by
        rw [List.countP_cons]; simp [hv]
      have hfilter : (it :: rest).filter validItem = it :: rest.filter validItem := by
        simp [List.filter_cons, hv]
      obtain ⟨ih1, ih2, ih3⟩ := ih (df ++ [mkPurchaseRow inp sub_category
        (get_next_id (df.map (fun r => r.purchase_id)) "PO")
        it.material_name it.quantity it.unit it.price])
        (upsertEntry inv it.material_name inp.supplier_name sub_category it.quantity it.unit)
        (p + 1)
      rw [hcount, hfilter]
      simp only [intakeLoop, if_pos hv, List.map_cons, List.length_cons]
      refine ⟨by rw [ih1]; omega, by rw [ih2], ?_⟩
      rw [ih3]
      simp [mkPurchaseRow]
    · have hcount : (it :: rest).countP validItem = rest.countP validItem := by
        rw [List.countP_cons]; simp [hv]
      have hfilter : (it :: rest).filter validItem = rest.filter validItem := by
        simp [List.filter_cons, hv]
      rw [intakeLoop, if_neg hv, hcount, hfilter]
      exact ih df inv p

/-- **C10** (invariants): Within a single multi-item purchase submission,
every processed item receives a distinct, strictly increasing `purchase_id`:
each new purchase record is appended to the in-memory purchase table
(`purchase_df.loc[len(purchase_df)] = new_row_data`, line 633) before the
next item's ID is derived, so successive ID allocations in one batch never
repeat even though nothing is persisted until the batch ends. -/
theorem intake_batch_ids_strictly_increasing (inp : IntakeInput) (sub_category : String)
    (items : List PurchaseItem) (df : List PurchaseRow) (inv : List Entry) :
    List.Pairwise (fun a b : PurchaseRow => ∃ va vb,
        stripParse "PO" a.purchase_id = some va ∧
        stripParse "PO" b.purchase_id = some vb ∧ va < vb)
      (intakeLoop inp sub_category items df inv 0).1
    ∧ ((intakeLoop inp sub_category items df inv 0).1.map
        (fun r => r.purchase_id)).Nodup := by
  have hmap := intakeLoop_ids inp sub_category items df inv 0
  have hrange : (List.range (items.countP validItem)).Pairwise
      (fun i j : Nat => (nextVal (df.map (fun r => r.purchase_id)) + (i : Int)) <
        (nextVal (df.map (fun r => r.purchase_id)) + (j : Int))) := by
    refine (List.pairwise_lt_range _).imp ?_
    intro a b hab
    omega
  have hpair : ((intakeLoop inp sub_category items df inv 0).1).Pairwise
      (fun a b => ∃ va vb, stripParse "PO" a.purchase_id = some va ∧
        stripParse "PO" b.purchase_id = some vb ∧ va < vb) := by
    have h2 : ((intakeLoop inp sub_category items df inv 0).1.map
        (fun r => stripParse "PO" r.purchase_id)).Pairwise
        (fun x y : Option Int => ∃ va vb, x = some va ∧ y = some vb ∧ va < vb) := by
      rw [hmap, List.pairwise_map]
      exact hrange.imp (fun h => ⟨_, _, rfl, rfl, h⟩)
    exact List.pairwise_map.mp h2
  refine ⟨hpair, ?_⟩
  show ((intakeLoop inp sub_category items df inv 0).1.map
    (fun r => r.purchase_id)).Pairwise (fun a b => a ≠ b)
  rw [List.pairwise_map]
  refine hpair.imp ?_
  rintro a b ⟨va, vb, ha, hb, hlt⟩ heq
  rw [heq, hb] at ha
  injection ha with h
  omega

/-! ## Case analyses of the consumption handlers -/

theorem new_sale_form_cases (bom : List BomRow) (inv : List Entry) (sales_ids : List String)
    (inp : SaleInput) (appendOk : Bool) :
    (∃ e, new_sale_form bom inv sales_ids inp appendOk = (.error e, [])) ∨
    ∃ items ups,
      consumeLoop (inp.product_quantity : ℚ) inv items [] = .ok ups ∧
      ((appendOk = false ∧
          new_sale_form bom inv sales_ids inp appendOk
            = (.error (.pyError .apiError), [.invOverwrite (applyUpdates inv ups)])) ∨
        (appendOk = true ∧ ∃ srow,
          new_sale_form bom inv sales_ids inp appendOk
            = (.ok (), [.invOverwrite (applyUpdates inv ups), .saleAppend srow]))) := by
  unfold new_sale_form
  split
  · exact Or.inl ⟨_, rfl⟩
  · split
    · exact Or.inl ⟨_, rfl⟩
    · split
      · exact Or.inl ⟨_, rfl⟩
      · exact Or.inl ⟨_, rfl⟩
      · exact Or.inl ⟨_, rfl⟩
      · rename_i items hcomp
        split
        · exact Or.inl ⟨_, rfl⟩
        · rename_i ups heq
          split
          · rename_i hok
            exact Or.inr ⟨items, ups, heq, Or.inr ⟨hok, _, rfl⟩⟩
          · rename_i hok
            exact Or.inr ⟨items, ups, heq,
              Or.inl ⟨Bool.eq_false_iff.mpr hok, rfl⟩⟩

theorem internal_production_form_cases (bom : List BomRow) (inv : List Entry)
    (pinp : ProductionInput) :
    (∃ e, internal_production_form bom inv pinp = (.error e, [])) ∨
    ∃ items ups,
      consumeLoop (pinp.quantity_to_produce : ℚ) inv items [] = .ok ups ∧
      internal_production_form bom inv pinp
        = (.ok (), [.invOverwrite (applyUpdates inv ups)]) := by
  unfold internal_production_form
  split
  · exact Or.inl ⟨_, rfl⟩
  · split
    · exact Or.inl ⟨_, rfl⟩
    · split
      · exact Or.inl ⟨_, rfl⟩
      · exact Or.inl ⟨_, rfl⟩
      · exact Or.inl ⟨_, rfl⟩
      · rename_i items hcomp
        split
        · exact Or.inl ⟨_, rfl⟩
        · rename_i ups heq
          exact Or.inr ⟨items, ups, heq, rfl⟩

/-! ## Concrete fixtures used by the witnesses -/

/-- A sample inventory row (the spec's §8 scenario). -/
def sampleEntry : Entry := ⟨"MAT-1", "Methanol", "SupplierX", "Bahan Baku", 100, "ml"⟩

/-- A sample BOM: `Perfume-A` needs 10 ml of Methanol/SupplierX per unit. -/
def sampleBom : List BomRow :=
  [⟨"Perfume-A", .json [.obj ⟨some (.s "Methanol"), some (.s "SupplierX"), some (.n 10)⟩]⟩]

/-- A sale of 5 units of `Perfume-A`. -/
def sampleSale : SaleInput := ⟨"Alice", "Perfume-A", 5, 250, "Cash", "Done"⟩

/-- An internal production run of 2 units of `Perfume-A`. -/
def sampleProd : ProductionInput := ⟨"Perfume-A", 2⟩

/-! ## Claim C1 -/

/-- **C1** (invariants): For every consumption operation (sale or internal
production) run on an inventory snapshot with non-negative stocks, every
entry's `current_stock` is still non-negative afterwards: the sufficiency
check never reports success for a component whose needed amount
(`quantity_needed` times run quantity) exceeds that entry's available stock
(every reserved post-deduction value is non-negative), and deltas are only
applied when every component's check passed. -/
theorem consumption_preserves_nonnegative_stock
    (bom : List BomRow) (inv : List Entry) (sales_ids : List String)
    (inp : SaleInput) (appendOk : Bool) (pinp : ProductionInput)
    (hinv : ∀ e ∈ inv, 0 ≤ e.current_stock) :
    (∀ inv2 ∈ invWrites (new_sale_form bom inv sales_ids inp appendOk).2,
      ∀ e ∈ inv2, 0 ≤ e.current_stock)
    ∧ (∀ inv2 ∈ invWrites (internal_production_form bom inv pinp).2,
      ∀ e ∈ inv2, 0 ≤ e.current_stock)
    ∧ (∀ (qty : ℚ) (items : List JItem) (ups : List (Nat × ℚ)),
      consumeLoop qty inv items [] = .ok ups → ∀ p ∈ ups, 0 ≤ p.2) := by
  refine ⟨?_, ?_, ?_⟩
  · rcases new_sale_form_cases bom inv sales_ids inp appendOk with ⟨e0, h⟩ | ⟨items, ups, hcl, hc⟩
    · rw [h]; intro inv2 h2; simp [invWrites] at h2
    · have hnn := consumeLoop_ok_nonneg _ inv items ups hcl
      have happ := applyUpdates_mem_nonneg ups inv hinv hnn
      rcases hc with ⟨_, heq⟩ | ⟨_, srow, heq⟩ <;>
      · rw [heq]
        intro inv2 h2
        simp [invWrites] at h2
        subst h2
        exact happ
  · rcases internal_production_form_cases bom inv pinp with ⟨e0, h⟩ | ⟨items, ups, hcl, heq⟩
    · rw [h]; intro inv2 h2; simp [invWrites] at h2
    · have hnn := consumeLoop_ok_nonneg _ inv items ups hcl
      have happ := applyUpdates_mem_nonneg ups inv hinv hnn
      rw [heq]
      intro inv2 h2
      simp [invWrites] at h2
      subst h2
      exact happ
  · intro qty items ups hcl
    exact consumeLoop_ok_nonneg qty inv items ups hcl

/-- Witness for C1: the sample sale (5 × 10 ml from 100 ml) leaves the
written inventory entry at 50 ml, which the theorem certifies non-negative. -/
theorem consumption_preserves_nonnegative_stock_witness :
    0 ≤ (⟨"MAT-1", "Methanol", "SupplierX", "Bahan Baku", 50, "ml"⟩ : Entry).current_stock :=
  (consumption_preserves_nonnegative_stock sampleBom [sampleEntry] [] sampleSale true
      sampleProd
      (by intro e he; simp [sampleEntry] at he; subst he; norm_num [sampleEntry])).1
    [⟨"MAT-1", "Methanol", "SupplierX", "Bahan Baku", 50, "ml"⟩]
    (by norm_num +decide [new_sale_form, sampleBom, sampleSale, sampleEntry, consumeLoop,
      resolveItem, findEntry, findEntryAux, valMatches, applyUpdates, setStock,
      get_next_id, invWrites, List.find?])
    ⟨"MAT-1", "Methanol", "SupplierX", "Bahan Baku", 50, "ml"⟩
    (by norm_num)

/-! ## Claim C2 -/

/-- **C2** (error handling): If the Consumption Engine fails before applying
deltas — the recipe row is missing (`recipeNotFound`), the components cannot
be decoded (`jsonSyntax`), a component's (material, supplier) entry is absent
from inventory (`materialNotFound`), or stock is insufficient for some
component (`insufficient`) — then no write of any kind occurs (the write log
is empty, so the inventory table is untouched and no order record is
appended), and the first failing component in component-list order is the
one reported (the loop's error is the first component whose check fails
against the snapshot). -/
theorem consumption_failure_writes_nothing
    (bom : List BomRow) (inv : List Entry) (sales_ids : List String)
    (inp : SaleInput) (appendOk : Bool) (pinp : ProductionInput) :
    (∀ e, (new_sale_form bom inv sales_ids inp appendOk).1 = .error e →
      (e = .recipeNotFound ∨ e = .jsonSyntax ∨ (∃ m s, e = .materialNotFound m s) ∨
        (∃ m n a, e = .insufficient m n a)) →
      (new_sale_form bom inv sales_ids inp appendOk).2 = [])
    ∧ (∀ e, (internal_production_form bom inv pinp).1 = .error e →
      (e = .recipeNotFound ∨ e = .jsonSyntax ∨ (∃ m s, e = .materialNotFound m s) ∨
        (∃ m n a, e = .insufficient m n a)) →
      (internal_production_form bom inv pinp).2 = [])
    ∧ (∀ (qty : ℚ) (items : List JItem) (e : ConsumeError),
      consumeLoop qty inv items [] = .error e →
      items.findSome? (fun it => errOf (resolveItem qty inv it)) = some e) := by
  refine ⟨?_, ?_, ?_⟩
  · intro e he hlist
    rcases new_sale_form_cases bom inv sales_ids inp appendOk with ⟨e0, h⟩ | ⟨items, ups, hcl, hc⟩
    · rw [h]
    · rcases hc with ⟨_, heq⟩ | ⟨_, srow, heq⟩
      · rw [heq] at he
        have he' : e = .pyError .apiError := (Except.error.injEq .. ▸ he).symm
        subst he'
        rcases hlist with h | h | ⟨m, s, h⟩ | ⟨m, n, a, h⟩ <;> simp at h
      · rw [heq] at he
        simp at he
  · intro e he hlist
    rcases internal_production_form_cases bom inv pinp with ⟨e0, h⟩ | ⟨items, ups, hcl, heq⟩
    · rw [h]
    · rw [heq] at he
      simp at he
  · intro qty items e hcl
    exact consumeLoop_error qty inv items [] e hcl

/-- Witness for C2: selling a product with no BOM row fails with
`recipeNotFound` and the theorem certifies the write log is empty. -/
theorem consumption_failure_writes_nothing_witness :
    (new_sale_form sampleBom [sampleEntry] []
      ⟨"Bob", "Unknown-Product", 1, 0, "Cash", "Request"⟩ true).2 = [] :=
  (consumption_failure_writes_nothing sampleBom [sampleEntry] []
      ⟨"Bob", "Unknown-Product", 1, 0, "Cash", "Request"⟩ true sampleProd).1
    .recipeNotFound
    (by norm_num +decide [new_sale_form, sampleBom])
    (Or.inl rfl)

/-! ## Claim C3 -/

theorem valMatches_eq (x : JVal) (n : String) (h : valMatches x n = true) : x = .s n := by
  cases x with
  | s v => exact congrArg JVal.s (by simpa [valMatches] using h)
  | n v => simp [valMatches] at h

/-- **C3 counterexample** (closed): stock 100, a recipe whose component list
names (Methanol, SupplierX) twice at 60 each, run quantity 1.  The claim says
the second occurrence is checked against the running total (100 − 60 = 40,
so the check should fail with needed 60 > 40) and that committed deductions
accumulate (final stock 100 − 120).  The code instead checks both occurrences
against the snapshot value 100 (both pass), and the applied updates leave the
stock at 40 = 100 − 60, not 100 − 120: only the last occurrence's deduction
survives.  The spec-following `checkAndReserve_spec` rejects this very input,
so the code and the claimed behaviour disagree on it. -/
theorem checkAndReserve_running_total_counterexample :
    consumeLoop 1 [sampleEntry]
      [.obj ⟨some (.s "Methanol"), some (.s "SupplierX"), some (.n 60)⟩,
       .obj ⟨some (.s "Methanol"), some (.s "SupplierX"), some (.n 60)⟩] []
      = .ok [(0, 40), (0, 40)]
    ∧ applyUpdates [sampleEntry] [(0, 40), (0, 40)]
      = [⟨"MAT-1", "Methanol", "SupplierX", "Bahan Baku", 40, "ml"⟩]
    ∧ checkAndReserve_spec [sampleEntry]
        [("Methanol", "SupplierX", 60), ("Methanol", "SupplierX", 60)]
      = .insufficient "Methanol" "SupplierX" 60 40
    ∧ (40 : ℚ) ≠ 100 - (60 + 60) := by
  refine ⟨?_, ?_, ?_, by norm_num⟩
  · norm_num +decide [consumeLoop, resolveItem, findEntry, findEntryAux, valMatches,
      sampleEntry]
  · norm_num +decide [applyUpdates, setStock, sampleEntry]
  · norm_num +decide [checkAndReserve_spec, findEntryStr, findEntryAux, setStock,
      sampleEntry]

/-- **C3 amended** (functional correctness): When the same
(material, supplier) pair appears twice in a recipe's component list, the
consumption sufficiency check evaluates *each* occurrence against the
original snapshot stock (not a running total), and applying the deferred
updates overwrites, so the committed stock equals the snapshot minus the
*last* occurrence's needed amount — earlier occurrences' deductions are
lost rather than accumulated. -/
theorem duplicate_component_checked_against_snapshot
    (e : Entry) (q1 q2 : ℚ) (n : ℕ)
    (h1 : q1 * n ≤ e.current_stock) (h2 : q2 * n ≤ e.current_stock) :
    consumeLoop (n : ℚ) [e]
      [.obj ⟨some (.s e.material_name), some (.s e.supplier_name), some (.n q1)⟩,
       .obj ⟨some (.s e.material_name), some (.s e.supplier_name), some (.n q2)⟩] []
      = .ok [(0, e.current_stock - q1 * n), (0, e.current_stock - q2 * n)]
    ∧ applyUpdates [e] [(0, e.current_stock - q1 * n), (0, e.current_stock - q2 * n)]
      = [⟨e.material_id, e.material_name, e.supplier_name, e.category,
          e.current_stock - q2 * n, e.unit_of_measure⟩] := by
  have hfind : findEntry [e] (.s e.material_name) (.s e.supplier_name) = some (0, e) := by
    simp [findEntry, findEntryAux, valMatches]
  have hres1 : resolveItem (n : ℚ) [e]
      (.obj ⟨some (.s e.material_name), some (.s e.supplier_name), some (.n q1)⟩)
      = .ok (0, e.current_stock - q1 * n) := by
    simp [resolveItem, hfind, not_lt.mpr h1]
  have hres2 : resolveItem (n : ℚ) [e]
      (.obj ⟨some (.s e.material_name), some (.s e.supplier_name), some (.n q2)⟩)
      = .ok (0, e.current_stock - q2 * n) := by
    simp [resolveItem, hfind, not_lt.mpr h2]
  constructor
  · simp [consumeLoop, hres1, hres2]
  · simp [applyUpdates, setStock]

/-- Witness for the amended C3: two occurrences of 30 ml at run quantity 2
against a 100 ml snapshot both pass (each 60 ≤ 100) and the final stock is
100 − 60 = 40, the last occurrence's deduction. -/
theorem duplicate_component_checked_against_snapshot_witness :
    consumeLoop ((2 : ℕ) : ℚ) [sampleEntry]
      [.obj ⟨some (.s "Methanol"), some (.s "SupplierX"), some (.n 30)⟩,
       .obj ⟨some (.s "Methanol"), some (.s "SupplierX"), some (.n 30)⟩] []
      = .ok [(0, 40), (0, 40)]
    ∧ applyUpdates [sampleEntry] [(0, 40), (0, 40)]
      = [⟨"MAT-1", "Methanol", "SupplierX", "Bahan Baku", 40, "ml"⟩] := by
  have h := duplicate_component_checked_against_snapshot sampleEntry 30 30 2
    (by norm_num [sampleEntry]) (by norm_num [sampleEntry])
  norm_num [sampleEntry] at h
  exact h

/-! ## Claim C4 -/

/-- A second BOM whose component list references the same
(Methanol, SupplierX) entry twice, 60 ml each. -/
def sampleDupBom : List BomRow :=
  [⟨"Perfume-D", .json
    [.obj ⟨some (.s "Methanol"), some (.s "SupplierX"), some (.n 60)⟩,
     .obj ⟨some (.s "Methanol"), some (.s "SupplierX"), some (.n 60)⟩]⟩]

/-- **C4 counterexample** (closed): producing 1 unit of a product whose BOM
lists (Methanol, SupplierX) twice at 60 ml succeeds and writes the entry at
40 ml, so the entry decreased by 100 − 40 = 60, not by the BOM total
60 + 60 = 120 that the claim requires. -/
theorem bom_total_decrement_counterexample :
    internal_production_form sampleDupBom [sampleEntry] ⟨"Perfume-D", 1⟩
      = (.ok (), [.invOverwrite [⟨"MAT-1", "Methanol", "SupplierX", "Bahan Baku", 40, "ml"⟩]])
    ∧ (100 : ℚ) - 40 ≠ 60 + 60 := by
  constructor
  · norm_num +decide [internal_production_form, sampleDupBom, sampleEntry, consumeLoop,
      resolveItem, findEntry, findEntryAux, valMatches, applyUpdates, setStock]
  · norm_num

theorem resolved_indices_nodup (qty : ℚ) (inv : List Entry) :
    ∀ (items : List JItem) (t : List (Nat × ℚ)),
      List.Forall₂ (fun it p => resolveItem qty inv it = .ok p) items t →
      (items.map keyOf).Nodup → (t.map Prod.fst).Nodup := by
  intro items t hf
  induction hf with
  | nil => intro _; exact List.nodup_nil
  | @cons it p items' t' hr htail ih =>
    intro hnd
    rw [List.map_cons, List.nodup_cons] at hnd ⊢
    obtain ⟨hnotin, hnd'⟩ := hnd
    refine ⟨?_, ih hnd'⟩
    intro hin
    obtain ⟨p', hp', hpeq⟩ := List.mem_map.mp hin
    obtain ⟨it', hit', hr'⟩ := forall₂_exists_left htail p' hp'
    obtain ⟨o, m, s, q, e, hito, hm, hs, hq, hfe, hlt, hv⟩ :=
      resolveItem_ok qty inv it p.1 p.2 (by rw [Prod.mk.eta]; exact hr)
    obtain ⟨o', m', s', q', e', hito', hm', hs', hq', hfe', hlt', hv'⟩ :=
      resolveItem_ok qty inv it' p'.1 p'.2 (by rw [Prod.mk.eta]; exact hr')
    have h1 := findEntryAux_spec _ inv p.1 e hfe
    have h2 := findEntryAux_spec _ inv p'.1 e' hfe'
    rw [hpeq] at h2
    have hee : e = e' := by
      have := h1.1.symm.trans h2.1
      exact Option.some.injEq .. ▸ this
    obtain ⟨hm1, hs1⟩ := Bool.and_eq_true .. ▸ h1.2
    obtain ⟨hm2, hs2⟩ := Bool.and_eq_true .. ▸ h2.2
    have hmm : m = m' := by
      rw [valMatches_eq m e.material_name hm1, valMatches_eq m' e'.material_name hm2, hee]
    have hss : s = s' := by
      rw [valMatches_eq s e.supplier_name hs1, valMatches_eq s' e'.supplier_name hs2, hee]
    have hkey : keyOf it = keyOf it' := by
      rw [hito, hito']
      simp [keyOf, hm, hs, hm', hs', hmm, hss]
    exact hnotin (hkey ▸ List.mem_map_of_mem keyOf hit')

/-- **C4 amended** (frame/effect): After a successful Consumption Engine run
of quantity Q, *provided each (material, supplier) pair occurs at most once
in the component list*, each affected inventory entry's `current_stock`
decreases by exactly `quantity_needed × Q` for the component that references
it, and every inventory entry not referenced by any update keeps all of its
fields (material_id, material_name, supplier_name, category, current_stock,
unit_of_measure) exactly unchanged.  (Without the at-most-once proviso the
original claim is false — see the counterexample.) -/
theorem consumption_effect_and_frame
    (qty : ℚ) (inv : List Entry) (items : List JItem) (ups : List (Nat × ℚ))
    (hok : consumeLoop qty inv items [] = .ok ups)
    (hnd : (items.map keyOf).Nodup) :
    (∀ j : Nat, (∀ p ∈ ups, p.1 ≠ j) → (applyUpdates inv ups).get? j = inv.get? j)
    ∧ List.Forall₂ (fun it p => ∃ e q, inv.get? p.1 = some e ∧ itemQn it = some q ∧
        (applyUpdates inv ups).get? p.1
          = some ⟨e.material_id, e.material_name, e.supplier_name, e.category,
              e.current_stock - q * qty, e.unit_of_measure⟩) items ups := by
  obtain ⟨t, ht, hf⟩ := consumeLoop_ok qty inv items [] ups hok
  rw [List.nil_append] at ht
  subst ht
  have hidx : (ups.map Prod.fst).Nodup := resolved_indices_nodup qty inv items ups hf hnd
  refine ⟨fun j hj => applyUpdates_get_frame ups inv j hj, ?_⟩
  refine forall₂_imp_mem hf ?_
  intro it p hit hp hr
  obtain ⟨o, m, s, q, e, hito, hm, hs, hq, hfe, hlt, hv⟩ :=
    resolveItem_ok qty inv it p.1 p.2 (by rw [Prod.mk.eta]; exact hr)
  have h1 := findEntryAux_spec _ inv p.1 e hfe
  refine ⟨e, q, h1.1, ?_, ?_⟩
  · rw [hito]
    simp [itemQn, hq]
  · have hupd := applyUpdates_get_update ups inv p.1 p.2
      (by rw [Prod.mk.eta]; exact hp) hidx
    rw [hupd, h1.1, hv]
    rfl

/-- A second, distinct inventory row. -/
def sampleEntry2 : Entry := ⟨"MAT-2", "Ethanol", "SupplierY", "Bahan Baku", 30, "ml"⟩

/-- A third inventory row referenced by no sample BOM. -/
def sampleEntry3 : Entry := ⟨"MAT-3", "Rose Oil", "SupplierZ", "Bahan Baku", 7, "ml"⟩

/-- Witness for the amended C4: a duplicate-free two-component run of
quantity 2 leaves the unreferenced third entry untouched. -/
theorem consumption_effect_and_frame_witness :
    (applyUpdates [sampleEntry, sampleEntry2, sampleEntry3] [(0, 80), (1, 20)]).get? 2
      = [sampleEntry, sampleEntry2, sampleEntry3].get? 2 :=
  (consumption_effect_and_frame 2 [sampleEntry, sampleEntry2, sampleEntry3]
      [.obj ⟨some (.s "Methanol"), some (.s "SupplierX"), some (.n 10)⟩,
       .obj ⟨some (.s "Ethanol"), some (.s "SupplierY"), some (.n 5)⟩]
      [(0, 80), (1, 20)]
      (by norm_num +decide [consumeLoop, resolveItem, findEntry, findEntryAux, valMatches,
        sampleEntry, sampleEntry2, sampleEntry3])
      (by decide)).1
    2 (by decide)

/-! ## Claim C5 -/

/-- **C5** (error handling): The Intake Engine is best-effort per item in
input order: an item with a missing `material_name`, non-positive quantity,
or missing unit is skipped with a warning and does not abort the batch (the
processed rows are exactly the valid items, in order); if at least one item
succeeds, the inventory overwrite and all accumulated purchase records are
persisted; if zero items succeed, the operation fails (`noValidItems`,
"Tidak ada item yang valid untuk diproses") and nothing is written to any
table. -/
theorem intake_best_effort_per_item
    (inp : IntakeInput) (purchase_df : List PurchaseRow) (inv : List Entry)
    (items : List PurchaseItem)
    (hsup : inp.supplier_name ≠ "") (hcat : inp.category ≠ "") (hstat : inp.status ≠ "")
    (hsub : (inp.category = "Operational" ∨ inp.category = "RnD") → inp.sub_category ≠ "")
    (hsome : ∃ it ∈ items, it.material_name ≠ "") :
    (0 < items.countP validItem →
      ∃ rows inv2,
        purchase_form inp purchase_df inv items
          = (.ok (), [.purchaseAppend rows, .invOverwrite inv2])
        ∧ rows.length = items.countP validItem
        ∧ rows.map (fun r => r.material_name)
            = (items.filter validItem).map (fun it => it.material_name))
    ∧ (items.countP validItem = 0 →
      purchase_form inp purchase_df inv items = (.error .noValidItems, [])) := by
  have hg1 : ¬ (inp.supplier_name = "" ∨ inp.category = "" ∨ inp.status = "") := by
    simp [hsup, hcat, hstat]
  have hg2 : ¬ ((inp.category = "Operational" ∨ inp.category = "RnD")
      ∧ inp.sub_category = "") := fun hcon => hsub hcon.1 hcon.2
  have hg3 : ¬ (items.isEmpty = true ∨ items.all (fun it => it.material_name == "") = true) := by
    obtain ⟨it, hit, hmt⟩ := hsome
    rintro (hempty | hall)
    · rw [List.isEmpty_iff] at hempty
      subst hempty
      simp at hit
    · exact hmt (by simpa using List.all_eq_true.mp hall it hit)
  obtain ⟨hp, hlen, hmat⟩ := intakeLoop_spec inp
    (if inp.category = "Operational" ∨ inp.category = "RnD" then inp.sub_category else "")
    items purchase_df inv 0
  unfold purchase_form
  rw [if_neg hg1, if_neg hg2, if_neg hg3]
  constructor
  · intro hpos
    have hc : (intakeLoop inp
        (if inp.category = "Operational" ∨ inp.category = "RnD" then inp.sub_category else "")
        items purchase_df inv 0).2.2.2 > 0 := by
      rw [hp]; omega
    rw [if_pos hc]
    exact ⟨_, _, rfl, hlen, hmat⟩
  · intro hzero
    have hc : ¬ ((intakeLoop inp
        (if inp.category = "Operational" ∨ inp.category = "RnD" then inp.sub_category else "")
        items purchase_df inv 0).2.2.2 > 0) := by
      rw [hp, hzero]
      omega
    rw [if_neg hc]

/-- The batch-level fields of the spec §8 intake scenario. -/
def sampleIntake : IntakeInput := ⟨"SupplierX", "Operational", "Bahan Baku", "Paid", "Cash"⟩

/-- The spec §8 intake items: a valid item X and an item with a missing
material name / unit, which is skipped. -/
def sampleItems : List PurchaseItem := [⟨"X", 10, 5, "g"⟩, ⟨"", 0, 5, ""⟩]

/-- Witness for C5: the §8 scenario batch persists both tables and processes
exactly the one valid item. -/
theorem intake_best_effort_per_item_witness :
    ∃ rows inv2,
      purchase_form sampleIntake [] [sampleEntry] sampleItems
        = (.ok (), [.purchaseAppend rows, .invOverwrite inv2])
      ∧ rows.length = sampleItems.countP validItem
      ∧ rows.map (fun r => r.material_name)
          = (sampleItems.filter validItem).map (fun it => it.material_name) :=
  (intake_best_effort_per_item sampleIntake [] [sampleEntry] sampleItems
    (by decide) (by decide) (by decide) (fun _ => by decide)
    ⟨⟨"X", 10, 5, "g"⟩, by decide, by decide⟩).1 (by decide)

/-! ## Claim C6 -/

/-- **C6 counterexample** (closed): the claim says the allocator takes the
max over *prefix-matching* parsable IDs only, ignoring malformed or
foreign-prefixed IDs, so `next(["7"], "PO")` should be `"PO-1"` (as the
spec-following `get_next_id_spec` indeed computes).  The code strips every
occurrence of `"PO-"` anywhere and parses the remainder, so the bare numeric
ID `"7"` — which does not match the prefix — is counted and the code returns
`"PO-8"`. -/
theorem get_next_id_prefix_matching_counterexample :
    get_next_id ["7"] "PO" = "PO-8"
    ∧ get_next_id_spec ["7"] "PO" = "PO-1"
    ∧ get_next_id ["7"] "PO" ≠ get_next_id_spec ["7"] "PO" := by
  refine ⟨by decide, by decide, by decide⟩

/-- **C6 amended** (functional correctness): The ID Allocator, given existing
IDs and a prefix, deletes every occurrence of `prefix + "-"` from each ID and
takes the maximum over the remainders that parse as (optionally signed)
decimal numbers — so IDs whose stripped remainder is numeric are counted even
when they do not start with the prefix (e.g. `next(["7"], "PO") = "PO-8"`) —
returning `prefix-(max+1)`, with a table containing no parsable remainder
treated as max 0 and non-numeric remainders ignored rather than failing.  In
particular `next([], "PO") = "PO-1"`,
`next(["PO-1","PO-3","FOO-99"], "PO") = "PO-4"` and
`next(["PO-abc"], "PO") = "PO-1"` hold as claimed, and in general the
returned ID renders `nextVal ids`, the stripped-parsed maximum plus one. -/
theorem get_next_id_strips_and_parses :
    get_next_id [] "PO" = "PO-1"
    ∧ get_next_id ["PO-1", "PO-3", "FOO-99"] "PO" = "PO-4"
    ∧ get_next_id ["PO-abc"] "PO" = "PO-1"
    ∧ get_next_id ["7"] "PO" = "PO-8"
    ∧ ∀ ids : List String, get_next_id ids "PO" = formatId "PO" (nextVal ids) :=
  ⟨by decide, by decide, by decide, by decide, get_next_id_po⟩

/-! ## Claim C7 -/

/-- **C7** (functional correctness): For every valid purchase line item, the
Stock Ledger upsert adds the item's quantity to the existing entry identified
by (material_name, supplier_name) when one exists — changing only that
entry's `current_stock` and leaving every other row untouched — and when
absent it appends exactly one new entry carrying a freshly allocated
`material_id` (`get_next_id(..., 'MAT')`), the item's quantity as
`current_stock`, the item's unit, and a category derived from the batch's
sub-category ("Bahan Baku" for the Bahan Baku sub-category, else
"Kemasan"). -/
theorem upsert_adds_or_creates
    (inv : List Entry) (material supplier sub_category : String) (qty : ℚ) (unit : String) :
    (∀ i e, findEntryStr inv material supplier = some (i, e) →
      (upsertEntry inv material supplier sub_category qty unit).get? i
          = some ⟨e.material_id, e.material_name, e.supplier_name, e.category,
              e.current_stock + qty, e.unit_of_measure⟩
        ∧ (∀ j, j ≠ i →
            (upsertEntry inv material supplier sub_category qty unit).get? j = inv.get? j)
        ∧ (upsertEntry inv material supplier sub_category qty unit).length = inv.length)
    ∧ (findEntryStr inv material supplier = none →
      upsertEntry inv material supplier sub_category qty unit
        = inv ++ [⟨get_next_id (inv.map (fun e => e.material_id)) "MAT", material, supplier,
            if sub_category = "Bahan Baku" then "Bahan Baku" else "Kemasan", qty, unit⟩]) := by
  constructor
  · intro i e hfind
    have hg := findEntryAux_spec _ inv i e hfind
    unfold upsertEntry
    rw [hfind]
    refine ⟨?_, ?_, setStock_length inv i _⟩
    · rw [setStock_get_self, hg.1]
      rfl
    · intro j hj
      exact setStock_get_other inv i j _ hj
  · intro hfind
    unfold upsertEntry
    rw [hfind]

/-- Witness for C7: upserting 25 ml of Methanol/SupplierX onto the sample
inventory adds to the existing entry's stock. -/
theorem upsert_adds_or_creates_witness :
    (upsertEntry [sampleEntry] "Methanol" "SupplierX" "Bahan Baku" 25 "ml").get? 0
      = some ⟨"MAT-1", "Methanol", "SupplierX", "Bahan Baku", 100 + 25, "ml"⟩ :=
  ((upsert_adds_or_creates [sampleEntry] "Methanol" "SupplierX" "Bahan Baku" 25 "ml").1
    0 sampleEntry (by decide)).1

/-! ## Claim C8 -/

/-- A BOM whose components cell is valid JSON but whose single component
object lacks the `material_name` field. -/
def sampleMissingFieldBom : List BomRow :=
  [⟨"Perfume-B", .json [.obj ⟨none, some (.s "SupplierX"), some (.n 1)⟩]⟩]

/-- **C8 counterexample** (closed): a component inside valid JSON that is
missing its `material_name` field does NOT produce the dedicated
decode-failure kind (`jsonSyntax`, the `except json.JSONDecodeError` clause,
the code's RecipeMalformed): `item['material_name']` raises KeyError, which
lands in the generic `except Exception` clause instead.  So "RecipeMalformed
… including a missing field or wrong type inside a component" is false of
the code. -/
theorem recipe_malformed_counterexample :
    (new_sale_form sampleMissingFieldBom [sampleEntry] []
        ⟨"Alice", "Perfume-B", 1, 0, "Cash", "Done"⟩ true).1
      = .error (.pyError (.keyError "material_name"))
    ∧ ConsumeError.pyError (.keyError "material_name") ≠ ConsumeError.jsonSyntax := by
  constructor
  · norm_num +decide [new_sale_form, sampleMissingFieldBom, consumeLoop, resolveItem]
  · decide

/-- **C8 amended** (error handling): BOM resolution fails with
`recipeNotFound` when the product has no BOM row, and with the distinct kind
`jsonSyntax` (the code's RecipeMalformed, its `except json.JSONDecodeError`
clause) exactly when the components cell is not valid JSON.  A missing field
inside a decoded component instead surfaces through the generic
`except Exception` clause (as a KeyError), which is distinguishable from
`recipeNotFound` but is NOT the dedicated malformed-recipe kind. -/
theorem bom_resolution_error_kinds
    (bom : List BomRow) (inv : List Entry) (sales_ids : List String)
    (inp : SaleInput) (appendOk : Bool)
    (hform : ¬ (inp.client_name = "" ∨ inp.product_name = "" ∨ inp.product_quantity = 0)) :
    (bom.find? (fun r => r.product_name == inp.product_name) = none →
      new_sale_form bom inv sales_ids inp appendOk = (.error .recipeNotFound, []))
    ∧ (∀ row, bom.find? (fun r => r.product_name == inp.product_name) = some row →
        row.components = .invalidJson →
        new_sale_form bom inv sales_ids inp appendOk = (.error .jsonSyntax, []))
    ∧ (∀ row o rest, bom.find? (fun r => r.product_name == inp.product_name) = some row →
        row.components = .json (.obj o :: rest) → o.material_name = none →
        new_sale_form bom inv sales_ids inp appendOk
          = (.error (.pyError (.keyError "material_name")), [])) := by
  refine ⟨?_, ?_, ?_⟩
  · intro hfind
    unfold new_sale_form
    rw [if_neg hform, hfind]
  · intro row hfind hcomp
    simp [new_sale_form, hform, hfind, hcomp]
  · intro row o rest hfind hcomp hmat
    simp [new_sale_form, hform, hfind, hcomp, consumeLoop, resolveItem, hmat]

/-- Witness for the amended C8: the missing-field BOM takes the generic
KeyError path with an empty write log. -/
theorem bom_resolution_error_kinds_witness :
    new_sale_form sampleMissingFieldBom [sampleEntry] []
        ⟨"Alice", "Perfume-B", 1, 0, "Cash", "Done"⟩ true
      = (.error (.pyError (.keyError "material_name")), []) :=
  (bom_resolution_error_kinds sampleMissingFieldBom [sampleEntry] []
      ⟨"Alice", "Perfume-B", 1, 0, "Cash", "Done"⟩ true (by decide)).2.2
    ⟨"Perfume-B", .json [.obj ⟨none, some (.s "SupplierX"), some (.n 1)⟩]⟩
    ⟨none, some (.s "SupplierX"), some (.n 1)⟩ []
    (by decide) rfl rfl

/-! ## Claim C9 -/

/-- **C9 counterexample** (closed): when the sale-record append fails after
the inventory overwrite succeeded, the handler's error is
`.pyError .apiError` — i.e. the generic `except Exception` clause ("Terjadi
kesalahan saat memproses penjualan: …") — with the stock already written.
There is no distinct PartialCommit kind in the code: the very same generic
kind also covers unrelated failures such as a KeyError inside the component
loop, so the claim's "surfaced as the distinct, loudly-flagged error kind
PartialCommit rather than a generic failure" is false of the code. -/
theorem partial_commit_surfaced_as_generic_counterexample :
    new_sale_form sampleBom [sampleEntry] [] sampleSale false
      = (.error (.pyError .apiError),
          [.invOverwrite [⟨"MAT-1", "Methanol", "SupplierX", "Bahan Baku", 50, "ml"⟩]])
    ∧ isGenericFailure (.pyError .apiError) = true
    ∧ (∃ e2, (new_sale_form sampleMissingFieldBom [sampleEntry] []
          ⟨"Alice", "Perfume-B", 1, 0, "Cash", "Done"⟩ true).1 = .error e2
        ∧ isGenericFailure e2 = true) := by
  refine ⟨?_, by decide, ⟨.pyError (.keyError "material_name"), ?_, by decide⟩⟩
  · norm_num +decide [new_sale_form, sampleBom, sampleSale, sampleEntry, consumeLoop,
      resolveItem, findEntry, findEntryAux, valMatches, applyUpdates, setStock,
      get_next_id]
  · norm_num +decide [new_sale_form, sampleMissingFieldBom, consumeLoop, resolveItem]

/-- **C9 amended** (error handling): In the sale flow, persistence order is
fixed — the inventory-stock overwrite always strictly precedes the sale
order-record append in the write log, and a successful result implies both
writes happened in that order.  If the append fails after the stock write
succeeded, the stock overwrite remains the only write and the failure is
surfaced through the generic `except Exception` clause (`.pyError .apiError`)
— the code has no distinct PartialCommit error kind. -/
theorem sale_persistence_order_and_append_failure
    (bom : List BomRow) (inv : List Entry) (sales_ids : List String)
    (inp : SaleInput) (appendOk : Bool) :
    ((new_sale_form bom inv sales_ids inp appendOk).2 = []
      ∨ (∃ i, (new_sale_form bom inv sales_ids inp appendOk).2 = [.invOverwrite i])
      ∨ (∃ i r, (new_sale_form bom inv sales_ids inp appendOk).2
          = [.invOverwrite i, .saleAppend r]))
    ∧ ((new_sale_form bom inv sales_ids inp appendOk).1 = .ok () →
        appendOk = true ∧ ∃ i r, (new_sale_form bom inv sales_ids inp appendOk).2
          = [.invOverwrite i, .saleAppend r])
    ∧ (appendOk = false → (new_sale_form bom inv sales_ids inp appendOk).2 ≠ [] →
        (new_sale_form bom inv sales_ids inp appendOk).1 = .error (.pyError .apiError)
        ∧ ∃ i, (new_sale_form bom inv sales_ids inp appendOk).2 = [.invOverwrite i]) := by
  rcases new_sale_form_cases bom inv sales_ids inp appendOk with
    ⟨e0, heq⟩ | ⟨items, ups, hcl, ⟨hfalse, heq⟩ | ⟨htrue, srow, heq⟩⟩
  · refine ⟨Or.inl (by rw [heq]), ?_, ?_⟩
    · intro hok
      rw [heq] at hok
      simp at hok
    · intro _ hne
      rw [heq] at hne
      simp at hne
  · refine ⟨Or.inr (Or.inl ⟨_, by rw [heq]⟩), ?_, ?_⟩
    · intro hok
      rw [heq] at hok
      simp at hok
    · intro _ _
      exact ⟨by rw [heq], ⟨_, by rw [heq]⟩⟩
  · refine ⟨Or.inr (Or.inr ⟨_, _, by rw [heq]⟩), ?_, ?_⟩
    · intro _
      exact ⟨htrue, _, _, by rw [heq]⟩
    · intro hf _
      rw [htrue] at hf
      simp at hf

/-- Witness for the amended C9: on the sample sale with a failing append the
theorem certifies the generic error and the lone inventory write. -/
theorem sale_persistence_order_and_append_failure_witness :
    (new_sale_form sampleBom [sampleEntry] [] sampleSale false).1
      = .error (.pyError .apiError)
    ∧ ∃ i, (new_sale_form sampleBom [sampleEntry] [] sampleSale false).2
        = [.invOverwrite i] :=
  (sale_persistence_order_and_append_failure sampleBom [sampleEntry] [] sampleSale false).2.2
    rfl
    (by norm_num +decide [new_sale_form, sampleBom, sampleSale, sampleEntry, consumeLoop,
      resolveItem, findEntry, findEntryAux, valMatches, applyUpdates, setStock,
      get_next_id])
